import Mathlib

/-!
Verification of the composition / history-prediction core of the mozc input
method, as described by `spec.md`.  The repository snapshot contains only the
test sources; every executable definition below is therefore modelled from the
specification (and cross-checked against the expectations spelled out in the
test files), as indicated by the `Modelled from the spec:` doc comments.
-/

set_option maxRecDepth 4000

/-- Boolean prefix test on character lists; used throughout the model in the
places where the C++ sources call `absl::StartsWith` / `Util::StartsWith`. -/
def isPrefixOfB : List Char → List Char → Bool
  | [], _ => true
  | _ :: _, [] => false
  | a :: as, b :: bs => a = b && isPrefixOfB as bs

theorem isPrefixOfB_refl (l : List Char) : isPrefixOfB l l = true := by
  induction l with
  | nil => rfl
  | cons a as ih => simp [isPrefixOfB, ih]

namespace NumberUtil

/-- Modelled from the spec: ASCII whitespace accepted by `NumberUtil`'s string
to integer conversions (the whitespace skipped by `strtol`-style parsing:
space, tab, newline, vertical tab, form feed, carriage return). -/
def isSpaceChar (c : Char) : Bool :=
  c = ' ' || c = '\t' || c = '\n' || c = '\x0b' || c = '\x0c' || c = '\r'

def dropSpaces : List Char → List Char
  | [] => []
  | c :: cs => if isSpaceChar c then dropSpaces cs else c :: cs

def digitVal (c : Char) : Option Nat :=
  if '0' ≤ c ∧ c ≤ '9' then some (c.toNat - '0'.toNat) else none

/-- Consumes a maximal run of decimal digits, accumulating their value. -/
def parseDigits : List Char → Nat → Nat × List Char
  | [], acc => (acc, [])
  | c :: cs, acc =>
    match digitVal c with
    | some d => parseDigits cs (acc * 10 + d)
    | none => (acc, c :: cs)

/-- Modelled from the spec: the decimal parsing shared by
`NumberUtil::SafeStrToInt32` and friends (the implementation file
`base/number_util.cc` is not part of this snapshot; behaviour is fixed by
`base/number_util_test.cc`).  Surrounding ASCII whitespace and one optional
leading sign are accepted; the digits are always read as decimal (so leading
zeros do not trigger octal); any other residue makes the parse fail. -/
def parseSignedDecimal (s : String) : Option Int :=
  let cs := dropSpaces s.data
  let signAndRest : Bool × List Char :=
    match cs with
    | '+' :: rest => (false, rest)
    | '-' :: rest => (true, rest)
    | other => (false, other)
  match signAndRest.2 with
  | [] => none
  | c :: _ =>
    if (digitVal c).isSome then
      let nr := parseDigits signAndRest.2 0
      if dropSpaces nr.2 = [] then
        some (if signAndRest.1 then -(nr.1 : Int) else (nr.1 : Int))
      else none
    else none

/-- Modelled from the spec: `NumberUtil::SafeStrToInt32`.  Parses a signed
decimal and then range-checks against the int32 bounds; `none` plays the role
of the C++ `false` return. -/
def SafeStrToInt32 (s : String) : Option Int :=
  match parseSignedDecimal s with
  | none => none
  | some v =>
    if -2147483648 ≤ v ∧ v ≤ 2147483647 then some v else none

/-- The C++ function writes through an out-parameter only on success; this
wrapper makes the "out parameter left unmodified on failure" behaviour
explicit. -/
def SafeStrToInt32Into (s : String) (value : Int) : Bool × Int :=
  match SafeStrToInt32 s with
  | some v => (true, v)
  | none => (false, value)

end NumberUtil

/-- Claim C8: `SafeStrToInt32` rejects "2147483648" (one past INT32_MAX)
leaving the out-parameter unmodified, likewise rejects "-2147483649", and
accepts "2147483647" / "-2147483648" yielding INT32_MAX / INT32_MIN. -/
theorem safeStrToInt32_int32_bounds :
    (∀ v : Int, NumberUtil.SafeStrToInt32Into "2147483648" v = (false, v)) ∧
    (∀ v : Int, NumberUtil.SafeStrToInt32Into "-2147483649" v = (false, v)) ∧
    NumberUtil.SafeStrToInt32 "2147483647" = some 2147483647 ∧
    NumberUtil.SafeStrToInt32 "-2147483648" = some (-2147483648) := by
  refine ⟨fun v => ?_, fun v => ?_, by decide, by decide⟩
  · rw [NumberUtil.SafeStrToInt32Into,
      show NumberUtil.SafeStrToInt32 "2147483648" = none by decide]
  · rw [NumberUtil.SafeStrToInt32Into,
      show NumberUtil.SafeStrToInt32 "-2147483649" = none by decide]

/-- Evaluation of the bounds theorem at the concrete out-parameter value 7. -/
theorem safeStrToInt32_int32_bounds_witness :
    NumberUtil.SafeStrToInt32Into "2147483648" 7 = (false, 7) :=
  safeStrToInt32_int32_bounds.1 7

/-- Claim C10: `SafeStrToInt32` accepts surrounding ASCII whitespace and an
optional sign, parses leading-zero numerals as decimal, and rejects hex
prefixes, decimal points, trailing garbage and the empty string. -/
theorem safeStrToInt32_input_format :
    NumberUtil.SafeStrToInt32 " \t\r\n\x0b\x0c0 \t\r\n\x0b\x0c" = some 0 ∧
    NumberUtil.SafeStrToInt32 " \t\r\n\x0b\x0c-0 \t\r\n\x0b\x0c" = some 0 ∧
    NumberUtil.SafeStrToInt32 "+0" = some 0 ∧
    NumberUtil.SafeStrToInt32 "-0" = some 0 ∧
    NumberUtil.SafeStrToInt32 " 1" = some 1 ∧
    NumberUtil.SafeStrToInt32 "2 " = some 2 ∧
    NumberUtil.SafeStrToInt32 "012345678" = some 12345678 ∧
    NumberUtil.SafeStrToInt32 "-012345678" = some (-12345678) ∧
    NumberUtil.SafeStrToInt32 "0x1234" = none ∧
    NumberUtil.SafeStrToInt32 "0." = none ∧
    NumberUtil.SafeStrToInt32 ".0" = none ∧
    NumberUtil.SafeStrToInt32 "3e" = none ∧
    NumberUtil.SafeStrToInt32 "" = none := by
  decide

/-! ## Composer: composition state machine (cursor, field type, copy) -/

inductive InputMode
  | HIRAGANA | FULL_KATAKANA | HALF_KATAKANA | HALF_ASCII | FULL_ASCII
deriving DecidableEq, Repr

inductive InputFieldType
  | NORMAL | PASSWORD | NUMBER | TEL
deriving DecidableEq, Repr

/-- Modelled from the spec: the observable `Composer` state (the
implementation `composer/composer.cc` is absent from the snapshot; behaviour
is fixed by `composer/composer_test.cc`).  The per-chunk structure is
flattened to the character buffer it renders to, which is the granularity at
which the cursor, field-type and copy claims are stated. -/
structure Composer where
  composition : List Char
  position : Nat
  inputMode : InputMode
  comebackInputMode : InputMode
  inputFieldType : InputFieldType
  sourceText : String
deriving DecidableEq, Repr

namespace Composer

def init : Composer :=
  { composition := [], position := 0, inputMode := InputMode.HIRAGANA,
    comebackInputMode := InputMode.HIRAGANA,
    inputFieldType := InputFieldType.NORMAL, sourceText := "" }

def GetLength (c : Composer) : Nat := c.composition.length

def GetCursor (c : Composer) : Nat := c.position

/-- Modelled from the spec: insertion places the characters at the cursor and
moves the cursor past them. -/
def InsertCharacter (s : String) (c : Composer) : Composer :=
  { c with
    composition :=
      c.composition.take c.position ++ s.data ++ c.composition.drop c.position,
    position := c.position + s.data.length }

/-- Modelled from the spec: removes the character left of the cursor; a no-op
at the beginning of the composition. -/
def Backspace (c : Composer) : Composer :=
  if c.position = 0 then c
  else
    { c with
      composition :=
        c.composition.take (c.position - 1) ++ c.composition.drop c.position,
      position := c.position - 1 }

/-- Modelled from the spec: removes the character right of the cursor; a no-op
at the end of the composition. -/
def DeleteChar (c : Composer) : Composer :=
  if GetLength c ≤ c.position then c
  else
    { c with
      composition :=
        c.composition.take c.position ++ c.composition.drop (c.position + 1) }

def MoveCursorLeft (c : Composer) : Composer :=
  { c with position := c.position - 1 }

def MoveCursorRight (c : Composer) : Composer :=
  if c.position < GetLength c then { c with position := c.position + 1 } else c

def MoveCursorToBeginning (c : Composer) : Composer :=
  { c with position := 0 }

def MoveCursorToEnd (c : Composer) : Composer :=
  { c with position := GetLength c }

/-- Modelled from the spec: the requested position is adopted only when it is
inside `[0, GetLength]`; otherwise the cursor stays put.  (The C++ parameter
is a `uint32`, so the test's `MoveCursorTo(-1)` arrives as a huge in-range
`Nat` here.) -/
def MoveCursorTo (x : Nat) (c : Composer) : Composer :=
  if x ≤ GetLength c then { c with position := x } else c

/-- Modelled from the spec: `Reset` clears chunks and cursor but preserves the
input mode. -/
def Reset (c : Composer) : Composer :=
  { c with composition := [], position := 0, sourceText := "" }

/-- The operations generating the reachable composer states used by the
cursor-invariant claim. -/
inductive Op
  | insert (s : String)
  | backspace
  | deleteChar
  | moveLeft
  | moveRight
  | moveToBeginning
  | moveToEnd
  | moveTo (x : Nat)
  | reset

def applyOp : Op → Composer → Composer
  | Op.insert s => InsertCharacter s
  | Op.backspace => Backspace
  | Op.deleteChar => DeleteChar
  | Op.moveLeft => MoveCursorLeft
  | Op.moveRight => MoveCursorRight
  | Op.moveToBeginning => MoveCursorToBeginning
  | Op.moveToEnd => MoveCursorToEnd
  | Op.moveTo x => MoveCursorTo x
  | Op.reset => Reset

def applyOps (l : List Op) (c : Composer) : Composer :=
  l.foldl (fun st op => applyOp op st) c

/-- A composer state is reachable when some operation sequence produces it
from the initial state. -/
def Reachable (c : Composer) : Prop :=
  ∃ l : List Op, applyOps l init = c

theorem applyOp_cursor_le (op : Op) (c : Composer)
    (h : GetCursor c ≤ GetLength c) :
    GetCursor (applyOp op c) ≤ GetLength (applyOp op c) := by
  cases op with
  | insert s =>
    simp only [applyOp, InsertCharacter, GetCursor, GetLength,
      List.length_append, List.length_take, List.length_drop] at *
    omega
  | backspace =>
    simp only [applyOp, Backspace]
    split
    · exact h
    · simp only [GetCursor, GetLength, List.length_append, List.length_take,
        List.length_drop] at *
      omega
  | deleteChar =>
    simp only [applyOp, DeleteChar]
    split
    · exact h
    · simp only [GetCursor, GetLength, List.length_append, List.length_take,
        List.length_drop] at *
      omega
  | moveLeft =>
    simp only [applyOp, MoveCursorLeft, GetCursor, GetLength] at *
    omega
  | moveRight =>
    simp only [applyOp, MoveCursorRight]
    split
    · simp only [GetCursor, GetLength] at *
      omega
    · exact h
  | moveToBeginning =>
    simp [applyOp, MoveCursorToBeginning, GetCursor, GetLength]
  | moveToEnd =>
    simp [applyOp, MoveCursorToEnd, GetCursor, GetLength]
  | moveTo x =>
    simp only [applyOp, MoveCursorTo]
    split
    · simpa [GetCursor, GetLength]
    · exact h
  | reset =>
    simp [applyOp, Reset, GetCursor, GetLength]

theorem reachable_cursor_le (c : Composer) (h : Reachable c) :
    GetCursor c ≤ GetLength c := by
  obtain ⟨l, rfl⟩ := h
  induction l using List.reverseRecOn with
  | nil => simp [applyOps, init, GetCursor, GetLength]
  | append_singleton l op ih =>
    have : applyOps (l ++ [op]) init = applyOp op (applyOps l init) := by
      simp [applyOps]
    rw [this]
    exact applyOp_cursor_le op _ ih

end Composer

/-- Claim C4: on every reachable composer state, every operation (the cursor
movements in particular) keeps `0 ≤ GetCursor ≤ GetLength`, and an
out-of-range `MoveCursorTo x` leaves the cursor position unchanged. -/
theorem composer_cursor_invariant (c : Composer) (h : Composer.Reachable c)
    (op : Composer.Op) :
    Composer.GetCursor (Composer.applyOp op c) ≤
      Composer.GetLength (Composer.applyOp op c) ∧
    (∀ x : Nat, Composer.GetLength c < x → Composer.MoveCursorTo x c = c) := by
  refine ⟨Composer.applyOp_cursor_le op c (Composer.reachable_cursor_le c h), ?_⟩
  intro x hx
  rw [Composer.MoveCursorTo, if_neg (by omega)]

/-- Evaluation of the cursor invariant on the state reached by typing
"mozuku" (length 6, cursor 6) and then requesting the out-of-range position
10, mirroring `ComposerTest.CursorMovements`. -/
theorem composer_cursor_invariant_witness :
    Composer.GetCursor
        (Composer.applyOp (Composer.Op.moveTo 10)
          (Composer.applyOps [Composer.Op.insert "mozuku"] Composer.init)) ≤
      Composer.GetLength
        (Composer.applyOp (Composer.Op.moveTo 10)
          (Composer.applyOps [Composer.Op.insert "mozuku"] Composer.init)) :=
  (composer_cursor_invariant _ ⟨[Composer.Op.insert "mozuku"], rfl⟩
    (Composer.Op.moveTo 10)).1

/-! ## Composer: copy semantics and field-type driven head commit -/

namespace Composer

/-- Modelled from the spec: the copy constructor duplicates every member of
the composer, producing an independent value. -/
def copy (c : Composer) : Composer :=
  { composition := c.composition, position := c.position,
    inputMode := c.inputMode, comebackInputMode := c.comebackInputMode,
    inputFieldType := c.inputFieldType, sourceText := c.sourceText }

/-- Modelled from the spec: preedit rendering of the composition buffer (the
output-mode normalisation applied by `CharacterFormManager` is a function of
the buffer and the stored modes, so it is collapsed into the buffer
rendition here). -/
def GetStringForPreedit (c : Composer) : String := String.mk c.composition

/-- Modelled from the spec: submission rendering (same output pipeline as the
preedit). -/
def GetStringForSubmission (c : Composer) : String := String.mk c.composition

/-- Modelled from the spec: conversion query, rendered from the buffer using
the input mode with pending text kept verbatim. -/
def GetQueryForConversion (c : Composer) : String := String.mk c.composition

/-- Modelled from the spec: prediction query, rendered like the conversion
query. -/
def GetQueryForPrediction (c : Composer) : String := String.mk c.composition

/-- Modelled from the spec: `ShouldCommitHead` leaves a field-type dependent
maximum number of characters in the composition and requests that everything
before them be committed; `some n` models `true` with commit length `n`
written to the out-parameter, `none` models `false`. -/
def ShouldCommitHead (c : Composer) : Option Nat :=
  let maxRemaining : Option Nat :=
    match c.inputFieldType with
    | InputFieldType.PASSWORD => some 1
    | InputFieldType.NUMBER => some 0
    | InputFieldType.TEL => some 0
    | InputFieldType.NORMAL => none
  match maxRemaining with
  | none => none
  | some m => if m < GetLength c then some (GetLength c - m) else none

end Composer

/-- Claim C5: copy-construction yields a composer whose preedit, submission,
conversion and prediction strings, cursor position and input mode coincide
with the source composer's. -/
theorem composer_copy_preserves_observables (c : Composer) :
    Composer.copy c = c ∧
    Composer.GetStringForPreedit (Composer.copy c) =
      Composer.GetStringForPreedit c ∧
    Composer.GetStringForSubmission (Composer.copy c) =
      Composer.GetStringForSubmission c ∧
    Composer.GetQueryForConversion (Composer.copy c) =
      Composer.GetQueryForConversion c ∧
    Composer.GetQueryForPrediction (Composer.copy c) =
      Composer.GetQueryForPrediction c ∧
    Composer.GetCursor (Composer.copy c) = Composer.GetCursor c ∧
    (Composer.copy c).inputMode = c.inputMode :=
  ⟨rfl, rfl, rfl, rfl, rfl, rfl, rfl⟩

/-- Evaluation of the copy theorem on the state reached by typing "an". -/
theorem composer_copy_preserves_observables_witness :
    Composer.copy (Composer.InsertCharacter "an" Composer.init) =
      Composer.InsertCharacter "an" Composer.init :=
  (composer_copy_preserves_observables
    (Composer.InsertCharacter "an" Composer.init)).1

/-- Claim C7: `ShouldCommitHead` depends on the input field type: never
commits for NORMAL; for PASSWORD commits `n - 1` characters exactly when
`n ≥ 2`; for NUMBER and TEL commits all `n` characters exactly when
`n ≥ 1`. -/
theorem shouldCommitHead_by_field_type (c : Composer) :
    (c.inputFieldType = InputFieldType.NORMAL →
      Composer.ShouldCommitHead c = none) ∧
    (c.inputFieldType = InputFieldType.PASSWORD →
      (2 ≤ Composer.GetLength c →
        Composer.ShouldCommitHead c = some (Composer.GetLength c - 1)) ∧
      (Composer.GetLength c ≤ 1 → Composer.ShouldCommitHead c = none)) ∧
    ((c.inputFieldType = InputFieldType.NUMBER ∨
      c.inputFieldType = InputFieldType.TEL) →
      (1 ≤ Composer.GetLength c →
        Composer.ShouldCommitHead c = some (Composer.GetLength c)) ∧
      (Composer.GetLength c = 0 → Composer.ShouldCommitHead c = none)) := by
  refine ⟨fun h => ?_, fun h => ⟨fun hn => ?_, fun hn => ?_⟩,
    fun h => ⟨fun hn => ?_, fun hn => ?_⟩⟩
  · simp [Composer.ShouldCommitHead, h]
  · simp only [Composer.ShouldCommitHead, h]
    rw [if_pos (by omega)]
  · simp only [Composer.ShouldCommitHead, h]
    rw [if_neg (by omega)]
  · rcases h with h | h <;>
      · simp only [Composer.ShouldCommitHead, h]
        rw [if_pos (by omega)]
        simp
  · rcases h with h | h <;>
      · simp only [Composer.ShouldCommitHead, h]
        rw [if_neg (by omega)]

/-- Evaluation of the head-commit theorem on a PASSWORD field holding "AB":
one character is committed, as in `ComposerTest.ShouldCommitHead`. -/
theorem shouldCommitHead_by_field_type_witness :
    Composer.ShouldCommitHead
      { composition := ['A', 'B'], position := 2,
        inputMode := InputMode.HALF_ASCII,
        comebackInputMode := InputMode.HALF_ASCII,
        inputFieldType := InputFieldType.PASSWORD, sourceText := "" } =
      some 1 :=
  ((shouldCommitHead_by_field_type _).2.1 rfl).1 (by decide)

/-! ## UserHistoryPredictor: entry graph, learning, lookup, retention -/

namespace UserHistoryPredictor

/-- Modelled from the spec: `Fingerprint(key, value)` is a pure, stable
function of the pair; the model uses the pair itself as the (collision-free)
fingerprint value. -/
abbrev Fp := String × String

structure Entry where
  key : String
  value : String
  suggestion_freq : Nat := 0
  conversion_freq : Nat := 0
  last_access_time : Nat := 0
  removed : Bool := false
  next_entries : List Fp := []
deriving DecidableEq, Repr

def Fingerprint (key value : String) : Fp := (key, value)

def EntryFingerprint (e : Entry) : Fp := (e.key, e.value)

/-- The in-memory dictionary (`dic_`), an association of entries keyed by
fingerprint. -/
abbrev Dic := List Entry

def lookupDic : Dic → Fp → Option Entry
  | [], _ => none
  | e :: rest, fp =>
    if EntryFingerprint e = fp then some e else lookupDic rest fp

def updateDic (dic : Dic) (fp : Fp) (f : Entry → Entry) : Dic :=
  dic.map fun e => if EntryFingerprint e = fp then f e else e

/-- Model of `EraseNextEntries(fp, entry)`: drops every link to `fp` from the entry's
next-entry list (cf. `UserHistoryPredictorTest.EraseNextEntries`). -/
def EraseNextEntries (fp : Fp) (e : Entry) : Entry :=
  { e with next_entries := e.next_entries.filter fun x => x ≠ fp }

/-- Model of `IsConnected(prev, next)`: whether `prev` holds a next-entry link carrying
the fingerprint of `next`. -/
def IsConnected (prev next : Entry) : Bool :=
  prev.next_entries.contains (EntryFingerprint next)

/-- Direct insertion of a (key, value) node, as the test helper `InsertEntry`
does: fetch-or-create the entry for the fingerprint and clear its removed
flag. -/
def InsertEntry (dic : Dic) (key value : String) : Dic :=
  match lookupDic dic (Fingerprint key value) with
  | some _ =>
    updateDic dic (Fingerprint key value) fun e => { e with removed := false }
  | none => dic ++ [{ key := key, value := value }]

/-- Direct insertion of a node chained after `prevFp`, as the test helper
`AppendEntry` does. -/
def AppendEntry (dic : Dic) (key value : String) (prevFp : Fp) : Dic :=
  InsertEntry
    (updateDic dic prevFp fun e =>
      { e with next_entries := e.next_entries ++ [Fingerprint key value] })
    key value

/-- Modelled from the spec: the single-segment core of `Finish`: upsert the
entry for `(key, value)`, bump its frequency and refresh its last access
time. -/
def FinishSegment (now : Nat) (key value : String) (dic : Dic) : Dic :=
  match lookupDic dic (Fingerprint key value) with
  | some _ =>
    updateDic dic (Fingerprint key value) fun e =>
      { e with suggestion_freq := e.suggestion_freq + 1,
               last_access_time := now, removed := false }
  | none =>
    { key := key, value := value, suggestion_freq := 1,
      last_access_time := now : Entry } :: dic

/-- Sixty-two days in seconds: the retention window of the history store. -/
def k62DayInSec : Nat := 62 * 24 * 60 * 60

/-- Sixty-three days in seconds, the clock advance of the retention scenario. -/
def k63DayInSec : Nat := 63 * 24 * 60 * 60

/-- Modelled from the spec: an entry takes part in lookup only when its
removed flag is clear and it is within the 62-day retention window of the
current clock. -/
def IsValidEntryForLookup (now : Nat) (e : Entry) : Bool :=
  !e.removed && decide (now ≤ e.last_access_time + k62DayInSec)

/-- The source-info tag carried by candidates produced from the user
history (`Segment::Candidate::USER_HISTORY_PREDICTOR`). -/
def USER_HISTORY_PREDICTOR : Nat := 1

structure Candidate where
  key : String
  value : String
  source_info : Nat
deriving DecidableEq, Repr

/-- Modelled from the spec: the prefix-lookup core of `PredictForRequest`:
for a non-empty input key, every valid entry whose key extends the input key
contributes a candidate tagged with the USER_HISTORY_PREDICTOR source flag.
The C++ `bool` return corresponds to the candidate list being non-empty. -/
def PredictForRequest (now : Nat) (inputKey : String) (dic : Dic) :
    List Candidate :=
  if inputKey.data = [] then []
  else
    (dic.filter fun e =>
        IsValidEntryForLookup now e && isPrefixOfB inputKey.data e.key.data).map
      fun e =>
        { key := e.key, value := e.value,
          source_info := USER_HISTORY_PREDICTOR }

/-- Modelled from the spec: `Sync` drops the entries that fell out of the
62-day retention window from the store. -/
def Sync (now : Nat) (dic : Dic) : Dic :=
  dic.filter fun e => decide (now ≤ e.last_access_time + k62DayInSec)

end UserHistoryPredictor

/-! ## Learning and prediction claims -/

open UserHistoryPredictor in
/-- Claim C1: after `Finish` commits a segment with key `k` and value `v`,
`PredictForRequest` on any non-empty prefix `q` of `k` succeeds (the
candidate list is non-empty) and contains a candidate whose value is `v` and
whose source info carries the USER_HISTORY_PREDICTOR flag. -/
theorem finish_then_predict (now : Nat) (k v q : String)
    (hq : isPrefixOfB q.data k.data = true) (hne : ¬ q.data = []) :
    ∃ c ∈ PredictForRequest now q (FinishSegment now k v []),
      c.value = v ∧ c.source_info &&& USER_HISTORY_PREDICTOR ≠ 0 := by
  have hdic : FinishSegment now k v [] =
      [{ key := k, value := v, suggestion_freq := 1,
         last_access_time := now : Entry }] := rfl
  rw [hdic, PredictForRequest, if_neg hne]
  have hvalid : IsValidEntryForLookup now
      { key := k, value := v, suggestion_freq := 1,
        last_access_time := now : Entry } = true := by
    simp [IsValidEntryForLookup]
  refine ⟨{ key := k, value := v, source_info := USER_HISTORY_PREDICTOR },
    ?_, rfl, show USER_HISTORY_PREDICTOR &&& USER_HISTORY_PREDICTOR ≠ 0 by decide⟩
  simp [List.filter, hvalid, hq]

open UserHistoryPredictor in
/-- Evaluation of the learning/prediction theorem at the Scenario B strings:
committing (ぐーぐる, グーグル) and asking for the prefix ぐーぐ. -/
theorem finish_then_predict_witness :
    ∃ c ∈ PredictForRequest 1 "ぐーぐ" (FinishSegment 1 "ぐーぐる" "グーグル" []),
      c.value = "グーグル" ∧ c.source_info &&& USER_HISTORY_PREDICTOR ≠ 0 :=
  finish_then_predict 1 "ぐーぐる" "グーグル" "ぐーぐ" (by decide) (by decide)

open UserHistoryPredictor in
/-- Claim C6: an entry committed at time `t` is no longer produced by lookup
after the clock advances 63 days and `Sync` runs, while an entry committed
after the advance (inside the 62-day window) is still produced. -/
theorem retention_62days_after_sync (t : Nat) (kA vA kB vB qA qB : String)
    (hvne : vA ≠ vB)
    (hqB : isPrefixOfB qB.data kB.data = true) (hqBne : ¬ qB.data = []) :
    (∀ c ∈ PredictForRequest (t + k63DayInSec) qA
        (Sync (t + k63DayInSec)
          (FinishSegment (t + k63DayInSec) kB vB (FinishSegment t kA vA []))),
      c.value ≠ vA) ∧
    (∃ c ∈ PredictForRequest (t + k63DayInSec) qB
        (Sync (t + k63DayInSec)
          (FinishSegment (t + k63DayInSec) kB vB (FinishSegment t kA vA []))),
      c.value = vB) := by
  set now := t + k63DayInSec with hnow
  have hA : FinishSegment t kA vA [] =
      [{ key := kA, value := vA, suggestion_freq := 1,
         last_access_time := t : Entry }] := rfl
  have hfp : ¬ (EntryFingerprint
      { key := kA, value := vA, suggestion_freq := 1,
        last_access_time := t : Entry } = Fingerprint kB vB) := by
    intro h
    exact hvne (congrArg Prod.snd h)
  have hB : FinishSegment now kB vB (FinishSegment t kA vA []) =
      [{ key := kB, value := vB, suggestion_freq := 1,
         last_access_time := now : Entry },
       { key := kA, value := vA, suggestion_freq := 1,
         last_access_time := t : Entry }] := by
    rw [hA, FinishSegment, lookupDic, if_neg hfp, lookupDic]
  have hOld : ¬ (now ≤ t + k62DayInSec) := by
    rw [hnow]
    simp only [k62DayInSec, k63DayInSec]
    omega
  constructor
  · intro c hc
    rw [PredictForRequest] at hc
    by_cases hqa : qA.data = []
    · rw [if_pos hqa] at hc
      exact absurd hc (List.not_mem_nil c)
    · rw [if_neg hqa] at hc
      rcases List.mem_map.mp hc with ⟨e, he, rfl⟩
      have hmf := List.mem_filter.mp he
      have heSync : e ∈ Sync now
          (FinishSegment now kB vB (FinishSegment t kA vA [])) := hmf.1
      rw [hB, Sync] at heSync
      have hms := List.mem_filter.mp heSync
      have heList := hms.1
      rcases List.mem_cons.mp heList with rfl | htl
      · intro hval
        exact hvne hval.symm
      · rcases List.mem_cons.mp htl with rfl | hnil
        · have hdec := hms.2
          rw [decide_eq_true_eq] at hdec
          exact absurd hdec hOld
        · exact absurd hnil (List.not_mem_nil _)
  · rw [PredictForRequest, if_neg hqBne]
    refine ⟨{ key := kB, value := vB, source_info := USER_HISTORY_PREDICTOR },
      ?_, rfl⟩
    refine List.mem_map.mpr
      ⟨{ key := kB, value := vB, suggestion_freq := 1,
         last_access_time := now : Entry }, ?_, rfl⟩
    refine List.mem_filter.mpr ⟨?_, ?_⟩
    · rw [hB, Sync]
      refine List.mem_filter.mpr ⟨List.mem_cons_self _ _, ?_⟩
      exact decide_eq_true (Nat.le_add_right _ _)
    · rw [Bool.and_eq_true]
      exact ⟨by simp [IsValidEntryForLookup], hqB⟩

open UserHistoryPredictor in
/-- Evaluation of the retention theorem on concrete entries: "guuguru"
learned at time 1 disappears after the 63-day jump and sync; "takahashi"
learned at the later time is still predicted from "taka". -/
theorem retention_62days_after_sync_witness :
    ∃ c ∈ PredictForRequest (1 + k63DayInSec) "taka"
        (Sync (1 + k63DayInSec)
          (FinishSegment (1 + k63DayInSec) "takahashi" "Takahashi"
            (FinishSegment 1 "guuguru" "Google" []))),
      c.value = "Takahashi" :=
  (retention_62days_after_sync 1 "guuguru" "Google" "takahashi" "Takahashi"
    "guu" "taka" (by decide) (by decide) (by decide)).2

/-! ## N-gram chain deletion -/

namespace UserHistoryPredictor

inductive RemoveNgramChainResult
  | NOT_FOUND | DONE | TAIL
deriving DecidableEq, Repr

/-- One pass of `RemoveNgramChain`'s loop over the next-entry links of the
current entry.  `recur` is the recursive call at the next chain depth.  A
child returning DONE propagates with its store; a child returning TAIL makes
this entry the second-to-last node of the found chain, so the link to the
child is cut here and DONE is returned; NOT_FOUND children leave the store
untouched and the loop continues. -/
def chainStep (recur : Dic → Entry → RemoveNgramChainResult × Dic)
    (entry : Entry) : List Fp → Dic → RemoveNgramChainResult × Dic
  | [], dic => (RemoveNgramChainResult.NOT_FOUND, dic)
  | fp :: rest, dic =>
    match lookupDic dic fp with
    | none => chainStep recur entry rest dic
    | some e =>
      match recur dic e with
      | (RemoveNgramChainResult.DONE, dic1) =>
        (RemoveNgramChainResult.DONE, dic1)
      | (RemoveNgramChainResult.TAIL, dic1) =>
        (RemoveNgramChainResult.DONE,
          updateDic dic1 (EntryFingerprint entry) (EraseNextEntries fp))
      | (RemoveNgramChainResult.NOT_FOUND, dic1) =>
        chainStep recur entry rest dic1

/-- Modelled from the spec: `RemoveNgramChain(target_key, target_value,
entry, ...)`.  `accK`/`accV` hold the key/value text of the chain walked so
far (the C++ keeps the fragments in push/pop vectors together with their
accumulated lengths).  While the accumulated text is strictly shorter than
the target in both coordinates the walk recurses through the next-entry
links; when it matches the target exactly the node reports TAIL so that its
caller cuts the link to it — the head node itself is never removed here.
`fuel` bounds the recursion depth (the C++ recursion terminates because every
chain step appends at least one character in practice). -/
def RemoveNgramChain :
    Nat → String → String → Dic → Entry → String → String →
      RemoveNgramChainResult × Dic
  | 0, _, _, dic, _, _, _ => (RemoveNgramChainResult.NOT_FOUND, dic)
  | fuel + 1, tk, tv, dic, entry, accK, accV =>
    if (accK ++ entry.key).length < tk.length ∧
        (accV ++ entry.value).length < tv.length then
      chainStep
        (fun d e =>
          RemoveNgramChain fuel tk tv d e (accK ++ entry.key)
            (accV ++ entry.value))
        entry entry.next_entries dic
    else if (accK ++ entry.key).length = tk.length ∧
        (accV ++ entry.value).length = tv.length then
      if accK ++ entry.key = tk ∧ accV ++ entry.value = tv then
        (RemoveNgramChainResult.TAIL, dic)
      else (RemoveNgramChainResult.NOT_FOUND, dic)
    else (RemoveNgramChainResult.NOT_FOUND, dic)

/-- Top-level invocation of the chain removal on a head entry, with empty
accumulators and enough fuel for any chain that spells out `tk`. -/
def RemoveNgramChainTop (dic : Dic) (tk tv : String) (head : Entry) :
    RemoveNgramChainResult × Dic :=
  RemoveNgramChain (tk.length + 1) tk tv dic head "" ""

/-- Modelled from the spec: `ClearHistoryEntry(key, value)` (a) marks the
exact-match entry removed (clearing its frequencies) and (b) walks every
entry whose key and value start the target pair, trying to decompose the
target along its next-entry chain; a DONE result from the walk reports a
successful chain deletion. -/
def clearChainLoop (key value : String) :
    List Fp → Dic → Bool × Dic
  | [], dic => (false, dic)
  | fp :: rest, dic =>
    match lookupDic dic fp with
    | none => clearChainLoop key value rest dic
    | some e =>
      if isPrefixOfB e.key.data key.data &&
          isPrefixOfB e.value.data value.data then
        let rd := RemoveNgramChainTop dic key value e
        let cont := clearChainLoop key value rest rd.2
        (decide (rd.1 = RemoveNgramChainResult.DONE) || cont.1, cont.2)
      else clearChainLoop key value rest dic

def ClearHistoryEntry (dic : Dic) (key value : String) : Bool × Dic :=
  let unigram : Bool × Dic :=
    match lookupDic dic (Fingerprint key value) with
    | some e =>
      if e.removed then (false, dic)
      else
        (true,
          updateDic dic (Fingerprint key value) fun e =>
            { e with suggestion_freq := 0, conversion_freq := 0,
                     removed := true })
    | none => (false, dic)
  let chains := clearChainLoop key value (unigram.2.map EntryFingerprint)
    unigram.2
  (unigram.1 || chains.1, chains.2)

end UserHistoryPredictor

namespace UserHistoryPredictor

/-- A NOT_FOUND result of the link loop leaves the store untouched, provided
the deeper recursion has that property. -/
theorem chainStep_not_found
    (recur : Dic → Entry → RemoveNgramChainResult × Dic)
    (hrec : ∀ d e, (recur d e).1 = RemoveNgramChainResult.NOT_FOUND →
      (recur d e).2 = d)
    (entry : Entry) :
    ∀ (fps : List Fp) (dic : Dic),
      (chainStep recur entry fps dic).1 = RemoveNgramChainResult.NOT_FOUND →
      (chainStep recur entry fps dic).2 = dic := by
  intro fps
  induction fps with
  | nil => intro dic _; rfl
  | cons fp rest ih =>
    intro dic hnf
    cases hfind : lookupDic dic fp with
    | none =>
      simp only [chainStep, hfind] at hnf ⊢
      exact ih dic hnf
    | some e =>
      rcases hr : recur dic e with ⟨r, d1⟩
      cases r with
      | DONE =>
        simp only [chainStep, hfind, hr] at hnf
        exact absurd hnf (by decide)
      | TAIL =>
        simp only [chainStep, hfind, hr] at hnf
        exact absurd hnf (by decide)
      | NOT_FOUND =>
        simp only [chainStep, hfind, hr] at hnf ⊢
        have hd1 : d1 = dic := by
          have h2 := hrec dic e
          rw [hr] at h2
          exact h2 rfl
        rw [hd1] at hnf ⊢
        exact ih dic hnf

/-- A NOT_FOUND result of the chain removal leaves the store untouched. -/
theorem removeNgramChain_not_found_pure :
    ∀ (fuel : Nat) (tk tv : String) (dic : Dic) (entry : Entry)
      (accK accV : String),
      (RemoveNgramChain fuel tk tv dic entry accK accV).1 =
        RemoveNgramChainResult.NOT_FOUND →
      (RemoveNgramChain fuel tk tv dic entry accK accV).2 = dic := by
  intro fuel
  induction fuel with
  | zero => intro tk tv dic entry accK accV _; rfl
  | succ n ih =>
    intro tk tv dic entry accK accV h
    rw [RemoveNgramChain] at h ⊢
    split at h
    next hlt =>
      rw [if_pos hlt]
      exact chainStep_not_found _ (fun d e => ih tk tv d e _ _) entry
        entry.next_entries dic h
    next hlt =>
      rw [if_neg hlt]
      split at h
      next heq =>
        rw [if_pos heq]
        split at h
        next hmatch =>
          rw [if_pos hmatch]
        next hmatch =>
          rw [if_neg hmatch]
      next heq =>
        rw [if_neg heq]

/-- A top-level call whose head entry is exactly the target pair reports
TAIL and leaves the store untouched. -/
theorem removeNgramChainTop_head_tail (dic : Dic) (tk tv : String)
    (entry : Entry) (hK : entry.key = tk) (hV : entry.value = tv) :
    RemoveNgramChainTop dic tk tv entry =
      (RemoveNgramChainResult.TAIL, dic) := by
  subst hK
  subst hV
  have h0 : ("" : String) ++ entry.key = entry.key := rfl
  have h0v : ("" : String) ++ entry.value = entry.value := rfl
  rw [RemoveNgramChainTop, RemoveNgramChain, h0, h0v]
  rw [if_neg (fun h => lt_irrefl _ h.1), if_pos ⟨rfl, rfl⟩,
    if_pos ⟨rfl, rfl⟩]

end UserHistoryPredictor

/-- The chain fixture of `UserHistoryPredictorTest.RemoveNgramChain`:
("abc", "ABC") standalone and the chain ("a","A") → ("b","B") → ("c","C"). -/
def dicAbc : UserHistoryPredictor.Dic :=
  UserHistoryPredictor.AppendEntry
    (UserHistoryPredictor.AppendEntry
      (UserHistoryPredictor.InsertEntry
        (UserHistoryPredictor.InsertEntry [] "abc" "ABC") "a" "A")
      "b" "B" ("a", "A"))
    "c" "C" ("b", "B")

open UserHistoryPredictor in
/-- Claim C3: `RemoveNgramChain` always reports exactly one of NOT_FOUND,
DONE or TAIL; a NOT_FOUND report leaves the store untouched (so no removed
flag and no next-entry link changes); and when the target pair is the head
entry itself the call reports TAIL without removing the head or any link. -/
theorem removeNgramChain_result_contract (fuel : Nat) (tk tv : String)
    (dic : Dic) (entry : Entry) (accK accV : String) :
    ((RemoveNgramChain fuel tk tv dic entry accK accV).1 =
        RemoveNgramChainResult.NOT_FOUND ∨
      (RemoveNgramChain fuel tk tv dic entry accK accV).1 =
        RemoveNgramChainResult.DONE ∨
      (RemoveNgramChain fuel tk tv dic entry accK accV).1 =
        RemoveNgramChainResult.TAIL) ∧
    ((RemoveNgramChain fuel tk tv dic entry accK accV).1 =
        RemoveNgramChainResult.NOT_FOUND →
      (RemoveNgramChain fuel tk tv dic entry accK accV).2 = dic) ∧
    (entry.key = tk → entry.value = tv →
      RemoveNgramChainTop dic tk tv entry =
        (RemoveNgramChainResult.TAIL, dic)) := by
  refine ⟨?_, removeNgramChain_not_found_pure fuel tk tv dic entry accK accV,
    fun hK hV => removeNgramChainTop_head_tail dic tk tv entry hK hV⟩
  cases (RemoveNgramChain fuel tk tv dic entry accK accV).1 with
  | NOT_FOUND => exact Or.inl rfl
  | DONE => exact Or.inr (Or.inl rfl)
  | TAIL => exact Or.inr (Or.inr rfl)

open UserHistoryPredictor in
/-- Evaluation of the chain-removal contract: removing ("a","A") from the
chain headed by ("a","A") itself reports TAIL and leaves the store as it
was, mirroring `UserHistoryPredictorTest.RemoveNgramChain`. -/
theorem removeNgramChain_result_contract_witness :
    RemoveNgramChainTop dicAbc "a" "A"
      { key := "a", value := "A", next_entries := [("b", "B")] } =
      (RemoveNgramChainResult.TAIL, dicAbc) :=
  (removeNgramChain_result_contract 1 "a" "A" dicAbc
    { key := "a", value := "A", next_entries := [("b", "B")] } "" "").2.2
    rfl rfl

/-! ## Clearing the commit-as-unigram form of a bigram chain -/

/-- The bigram fixture of `UserHistoryPredictorTest.ClearHistoryEntryBigram*`:
the commit-as-unigram node ("japaneseinput", "JapaneseInput") plus the chain
("japanese", "Japanese") → ("input", "Input"), as learned from one
two-segment commit. -/
def dicJI : UserHistoryPredictor.Dic :=
  UserHistoryPredictor.AppendEntry
    (UserHistoryPredictor.InsertEntry
      (UserHistoryPredictor.InsertEntry [] "japaneseinput" "JapaneseInput")
      "japanese" "Japanese")
    "input" "Input" ("japanese", "Japanese")

/-- The store after `ClearHistoryEntry("japaneseinput", "JapaneseInput")`. -/
def dicJICleared : UserHistoryPredictor.Dic :=
  (UserHistoryPredictor.ClearHistoryEntry dicJI "japaneseinput"
    "JapaneseInput").2

open UserHistoryPredictor in
/-- Claim C2 counterexample: after `ClearHistoryEntry` on the bigram's
commit-as-unigram form ("japaneseinput", "JapaneseInput"), the next-entry
link from A = ("japanese", "Japanese") to B = ("input", "Input") does NOT
remain present: `IsConnected(A, B)` computes to `false`, contradicting the
claim that the chain stays connected. -/
theorem clear_commit_unigram_link_cut :
    ((lookupDic dicJICleared ("japanese", "Japanese")).bind fun a =>
      (lookupDic dicJICleared ("input", "Input")).map fun b =>
        IsConnected a b) = some false := by
  decide

open UserHistoryPredictor in
/-- Claim C2 (amended): `ClearHistoryEntry` on the commit-as-unigram form
reports a deletion and marks only that unigram node removed — the chain
nodes A and B keep `removed = false` — but it also erases the next-entry
link from A to B, so `IsConnected(A, B)` is `false` afterwards. -/
theorem clear_commit_unigram_amended :
    (ClearHistoryEntry dicJI "japaneseinput" "JapaneseInput").1 = true ∧
    (lookupDic dicJICleared ("japaneseinput", "JapaneseInput")).map
      Entry.removed = some true ∧
    (lookupDic dicJICleared ("japanese", "Japanese")).map
      Entry.removed = some false ∧
    (lookupDic dicJICleared ("input", "Input")).map
      Entry.removed = some false ∧
    ((lookupDic dicJICleared ("japanese", "Japanese")).bind fun a =>
      (lookupDic dicJICleared ("input", "Input")).map fun b =>
        IsConnected a b) = some false := by
  decide

/-! ## Roman-input fuzzy prefix matching -/

namespace UserHistoryPredictor

/-- Modelled from the spec: the scanning loop of `RomanFuzzyPrefixMatch`
(the implementation is absent; behaviour is fixed by
`UserHistoryPredictorTest.RomanFuzzyPrefixMatch`).  `str` and the candidate
misspelled text are walked together; at the first mismatch exactly one
forward correction of the second argument is tried — prolonged-sound-mark
substitution when `str` holds '-' there, otherwise one deletion or one
adjacent transposition — and the corrected text must start `str`.  An exact
prefix falls off the loop and yields `false`. -/
def romanFuzzyLoop : List Char → List Char → Bool
  | [], [] => false
  | [], _ :: _ => false
  | _ :: _, [] => false
  | x :: s, y :: p =>
    if x = y then romanFuzzyLoop s p
    else if x = '-' then
      if y.isAlpha then false
      else isPrefixOfB p s
    else
      isPrefixOfB (y :: p) s ||
        (match p with
         | [] => false
         | z :: rest => decide (x = z) && isPrefixOfB (y :: rest) s)

/-- Modelled from the spec: `RomanFuzzyPrefixMatch(str, prefix_text)` with
its guard: an empty candidate, or one longer than `str`, never matches. -/
def RomanFuzzyPrefixMatch (str pre : String) : Bool :=
  if pre.data.length = 0 || str.data.length < pre.data.length then false
  else romanFuzzyLoop str.data pre.data

/-- One forward correction of a mistyped romaji text: keep a leading
character and correct deeper, insert one character, transpose the two
leading characters, or replace a leading non-alphabetic character by the
prolonged sound mark '-'. -/
inductive ForwardEdit : List Char → List Char → Prop
  | keep (c : Char) {b v : List Char} : ForwardEdit b v →
      ForwardEdit (c :: b) (c :: v)
  | ins (c : Char) (b : List Char) : ForwardEdit b (c :: b)
  | swap (c1 c2 : Char) (b : List Char) :
      ForwardEdit (c1 :: c2 :: b) (c2 :: c1 :: b)
  | voice (c : Char) (b : List Char) : c.isAlpha = false →
      ForwardEdit (c :: b) ('-' :: b)

theorem romanFuzzyLoop_refl (l : List Char) : romanFuzzyLoop l l = false := by
  induction l with
  | nil => rfl
  | cons x s ih =>
    simp only [romanFuzzyLoop, if_true]
    exact ih

/-- Whenever the loop matches, some forward correction of the second
argument is a prefix of the first: only corrections of the candidate toward
`str` are ever tested. -/
theorem romanFuzzyLoop_sound :
    ∀ (s p : List Char), romanFuzzyLoop s p = true →
      ∃ v, ForwardEdit p v ∧ isPrefixOfB v s = true := by
  intro s
  induction s with
  | nil =>
    intro p h
    cases p with
    | nil => exact absurd h (by decide)
    | cons y p2 => exact absurd h (by simp [romanFuzzyLoop])
  | cons x s ih =>
    intro p h
    cases p with
    | nil => exact absurd h (by simp [romanFuzzyLoop])
    | cons y p2 =>
      simp only [romanFuzzyLoop] at h
      by_cases hxy : x = y
      · rw [if_pos hxy] at h
        obtain ⟨v, hv, hvp⟩ := ih p2 h
        refine ⟨y :: v, ForwardEdit.keep y hv, ?_⟩
        subst hxy
        simp [isPrefixOfB, hvp]
      · rw [if_neg hxy] at h
        by_cases hdash : x = '-'
        · rw [if_pos hdash] at h
          by_cases halpha : y.isAlpha = true
          · rw [if_pos halpha] at h
            exact absurd h (by decide)
          · rw [if_neg halpha] at h
            refine ⟨'-' :: p2,
              ForwardEdit.voice y p2 (Bool.not_eq_true y.isAlpha ▸ halpha), ?_⟩
            subst hdash
            simp [isPrefixOfB, h]
        · rw [if_neg hdash] at h
          rcases Bool.or_eq_true _ _ |>.mp h with hdel | hswap
          · exact ⟨x :: y :: p2, ForwardEdit.ins x (y :: p2),
              by simp [isPrefixOfB, hdel]⟩
          · cases p2 with
            | nil => exact Bool.noConfusion hswap
            | cons z rest =>
              rw [Bool.and_eq_true, decide_eq_true_eq] at hswap
              refine ⟨z :: y :: rest, ForwardEdit.swap y z rest, ?_⟩
              rcases hswap with ⟨hxz, hpre⟩
              subst hxz
              simp [isPrefixOfB, hpre]

end UserHistoryPredictor

open UserHistoryPredictor in
/-- Claim C9: `RomanFuzzyPrefixMatch` is irreflexive — it never matches a
string against itself (the empty string included) — and it is directional
by construction: a match always arises from a forward correction (adjacent
transposition, single deletion, or voicing-mark substitution) of the second
argument tested against the first, never the reverse; the concrete pair
("abcd", "acd") matches one way only. -/
theorem romanFuzzy_irreflexive_directional :
    (∀ a : String, RomanFuzzyPrefixMatch a a = false) ∧
    (∀ a b : String, RomanFuzzyPrefixMatch a b = true →
      ∃ v, ForwardEdit b.data v ∧ isPrefixOfB v a.data = true) ∧
    RomanFuzzyPrefixMatch "abcd" "acd" = true ∧
    RomanFuzzyPrefixMatch "acd" "abcd" = false := by
  refine ⟨fun a => ?_, fun a b h => ?_, by decide, by decide⟩
  · rw [RomanFuzzyPrefixMatch]
    split
    · rfl
    · exact romanFuzzyLoop_refl a.data
  · rw [RomanFuzzyPrefixMatch] at h
    rcases hc : (b.data.length = 0 || a.data.length < b.data.length) with _ | _
    · rw [hc, if_neg (by simp)] at h
      exact romanFuzzyLoop_sound a.data b.data h
    · rw [hc, if_pos rfl] at h
      exact absurd h (by decide)

open UserHistoryPredictor in
/-- Evaluation of the directional conjunct at the deletion pair
("abcd", "acd"): the forward correction re-inserting 'b' matches. -/
theorem romanFuzzy_irreflexive_directional_witness :
    ∃ v, ForwardEdit ("acd".data) v ∧ isPrefixOfB v ("abcd".data) = true :=
  romanFuzzy_irreflexive_directional.2.1 "abcd" "acd" (by decide)
